import Mathlib

/-!
Verification development for the schema-driven value unmarshalling engine of
openapi_core (unmarshalling/schemas/unmarshallers.py and
unmarshalling/schemas/factories.py).

Decoded JSON values are shallowly embedded as the inductive `Val`; schema
nodes as the inductive `Schema`; the stateful logging side channel of the
Python logger as a writer component of the result type `Unm`.  The external
validator library is an abstract capability in `Env`.
-/

namespace OC

/-- A decoded JSON-like value, after parsing and (possibly) unmarshalling.
Python datetimes, floats and similar opaque scalars are abstracted: floats as
rationals, model objects (ModelFactory output) as a tagged field list. -/
inductive Val where
  | null : Val
  | bool (b : Bool) : Val
  | int (n : Int) : Val
  | float (q : Rat) : Val
  | str (s : String) : Val
  | arr (xs : List Val) : Val
  | obj (kvs : List (String × Val)) : Val
  | model (name : String) (kvs : List (String × Val)) : Val

mutual
/-- A schema node (openapi_core Spec object restricted to the keys the
unmarshalling engine reads).  `none` in an `Option` field means the key is
absent from the schema dict; `Bool` fields model `getkey(k, False)` access. -/
inductive Schema where
  | mk (type? : Option String)
       (format? : Option String)
       (nullable : Bool)
       (readOnly : Bool)
       (writeOnly : Bool)
       (deprecated : Bool)
       (default? : Option Val)
       (properties : List (String × Schema))
       (addProps? : Option AddlProps)
       (items? : Option Schema)
       (oneOf? : Option (List Schema))
       (allOf? : Option (List Schema))
       (xModel? : Option String) : Schema

/-- The value of an `additionalProperties` schema key: a boolean or a schema. -/
inductive AddlProps where
  | bool (b : Bool) : AddlProps
  | schema (s : Schema) : AddlProps
end

def Schema.type? : Schema → Option String
  | .mk t _ _ _ _ _ _ _ _ _ _ _ _ => t

def Schema.format? : Schema → Option String
  | .mk _ f _ _ _ _ _ _ _ _ _ _ _ => f

def Schema.nullable : Schema → Bool
  | .mk _ _ n _ _ _ _ _ _ _ _ _ _ => n

def Schema.readOnly : Schema → Bool
  | .mk _ _ _ r _ _ _ _ _ _ _ _ _ => r

def Schema.writeOnly : Schema → Bool
  | .mk _ _ _ _ w _ _ _ _ _ _ _ _ => w

def Schema.deprecated : Schema → Bool
  | .mk _ _ _ _ _ d _ _ _ _ _ _ _ => d

def Schema.default? : Schema → Option Val
  | .mk _ _ _ _ _ _ d _ _ _ _ _ _ => d

def Schema.properties : Schema → List (String × Schema)
  | .mk _ _ _ _ _ _ _ p _ _ _ _ _ => p

def Schema.addProps? : Schema → Option AddlProps
  | .mk _ _ _ _ _ _ _ _ a _ _ _ _ => a

def Schema.items? : Schema → Option Schema
  | .mk _ _ _ _ _ _ _ _ _ i _ _ _ => i

def Schema.oneOf? : Schema → Option (List Schema)
  | .mk _ _ _ _ _ _ _ _ _ _ o _ _ => o

def Schema.allOf? : Schema → Option (List Schema)
  | .mk _ _ _ _ _ _ _ _ _ _ _ a _ => a

def Schema.xModel? : Schema → Option String
  | .mk _ _ _ _ _ _ _ _ _ _ _ _ x => x

/-- Python exceptions raised by a Formatter transform: `ValueError` is caught
and wrapped by the unmarshallers, `TypeError` propagates. -/
inductive PyErr where
  | valueError : PyErr
  | typeError : PyErr

/-- Errors the engine can raise.  The first three mirror the openapi_core
exception taxonomy (all subclasses of `UnmarshalError`); `keyError` and
`typeError` are the plain Python exceptions that can escape; `outOfFuel` is
the artifact of the fuel-indexed embedding and never occurs for sufficiently
large fuel. -/
inductive UErr where
  | invalidSchemaValue (value : Val) (schemaType : String) (schemaErrors : List String) : UErr
  | invalidSchemaFormatValue (value : Val) (format? : Option String) : UErr
  | formatterNotFound (format? : Option String) : UErr
  | keyError (k : String) : UErr
  | typeError : UErr
  | outOfFuel : UErr

/-- Whether `except (UnmarshalError, ValueError)` in `_unmarshal_object`
catches the error: all openapi_core unmarshal errors are, the plain Python
`KeyError`/`TypeError` are not, and the fuel artifact always propagates. -/
def UErr.isCaught : UErr → Bool
  | .invalidSchemaValue _ _ _ => true
  | .invalidSchemaFormatValue _ _ => true
  | .formatterNotFound _ => true
  | .keyError _ => false
  | .typeError => false
  | .outOfFuel => false

/-- Whether `except ValidateError` (in the Any unmarshaller) catches the
error: only structural validation failures. -/
def UErr.isValidateErr : UErr → Bool
  | .invalidSchemaValue _ _ _ => true
  | _ => false

/-- A `(predicate, transform)` pair implementing one `(type, format)`
coercion (openapi_core Formatter). -/
structure Formatter where
  validate : Val → Bool
  transform : Val → Except PyErr Val

/-- Which direction of traffic is being unmarshalled. -/
inductive UnmarshalContext where
  | request : UnmarshalContext
  | response : UnmarshalContext
deriving DecidableEq

/-- The ambient environment of a SchemaUnmarshallersFactory: the external
structural validator capability (`get_validator` output, abstracted as a pure
function from schema and value to the error list that `iter_errors` yields),
the caller-supplied custom formatters keyed by format name, and the optional
unmarshal context. -/
structure Env where
  validatorOf : Schema → Val → List String
  customFormatters : List (String × Formatter)
  context : Option UnmarshalContext

/-- Modelled from the spec: the external openapi_schema_validator structural
type predicate `is_string` (the structural "is string" check). -/
def is_string : Val → Bool
  | .str _ => true
  | _ => false

/-- Modelled from the spec: the external predicate `is_integer`.  Python
booleans are excluded from int by the library; the embedding separates the
constructors, so this is plain constructor matching. -/
def is_integer : Val → Bool
  | .int _ => true
  | _ => false

/-- Modelled from the spec: the external predicate `is_number` (accepts int
or float, excludes bool). -/
def is_number : Val → Bool
  | .int _ => true
  | .float _ => true
  | _ => false

/-- Modelled from the spec: the external predicate `is_bool`. -/
def is_bool : Val → Bool
  | .bool _ => true
  | _ => false

/-- Modelled from the spec: the external predicate `is_array`. -/
def is_array : Val → Bool
  | .arr _ => true
  | _ => false

/-- Modelled from the spec: the external predicate `is_object`. -/
def is_object : Val → Bool
  | .obj _ => true
  | _ => false

/-- Whether a value is the null sentinel (Python None). -/
def Val.isNull : Val → Bool
  | .null => true
  | _ => false

/-- Modelled from the spec: Python built-in `str` cast, which never fails.
The repr of container values is abstracted to a placeholder token. -/
def pyStr : Val → String
  | .str s => s
  | .int n => toString n
  | .bool b => if b then "True" else "False"
  | .null => "None"
  | .float q => toString q
  | .arr _ => "<list>"
  | .obj _ => "<dict>"
  | .model _ _ => "<model>"

/-- Decimal digit value of a character, if any. -/
def digitVal? (c : Char) : Option Nat :=
  if c = '0' then some 0 else if c = '1' then some 1 else if c = '2' then some 2
  else if c = '3' then some 3 else if c = '4' then some 4 else if c = '5' then some 5
  else if c = '6' then some 6 else if c = '7' then some 7 else if c = '8' then some 8
  else if c = '9' then some 9 else none

/-- Accumulate decimal digits; `none` accumulator means no digit seen yet. -/
def digitsToNat : List Char → Option Nat → Option Nat
  | [], acc => acc
  | c :: cs, acc =>
    match digitVal? c, acc with
    | some d, some n => digitsToNat cs (some (10 * n + d))
    | some d, none => digitsToNat cs (some d)
    | none, _ => none

/-- Modelled from the spec: integer-literal parsing as Python `int(str)`
performs it (an optional sign followed by decimal digits; anything else is a
ValueError). -/
def pyParseInt (s : String) : Option Int :=
  match s.data with
  | '-' :: cs => (digitsToNat cs none).map (fun n => -(n : Int))
  | '+' :: cs => (digitsToNat cs none).map (fun n => (n : Int))
  | cs => (digitsToNat cs none).map (fun n => (n : Int))

/-- Modelled from the spec: Python built-in `int` cast.  Parses integer
literals from strings (raising ValueError on failure), truncates floats, and
raises TypeError on containers and None. -/
def pyInt : Val → Except PyErr Val
  | .int n => .ok (.int n)
  | .bool b => .ok (.int (if b then 1 else 0))
  | .str s =>
    match pyParseInt s with
    | some n => .ok (.int n)
    | none => .error .valueError
  | .float q => .ok (.int q.num)
  | _ => .error .typeError

/-- Modelled from the spec: openapi_core `forcebool`, the permissive
truthy-string coercion — boolean inputs pass through, strings are matched
against common textual true tokens, other values take Python truthiness. -/
def forcebool : Val → Val
  | .bool b => .bool b
  | .str s =>
    .bool (["true", "True", "TRUE", "yes", "Yes", "YES", "y", "Y", "t", "T",
            "1"].contains s)
  | .int n => .bool (n ≠ 0)
  | .float q => .bool (q ≠ 0)
  | .null => .bool false
  | .arr xs => .bool (!xs.isEmpty)
  | .obj kvs => .bool (!kvs.isEmpty)
  | .model _ _ => .bool true

/-- Modelled from the spec: openapi_core `format_number`, the numeric
coercion — accepts int and float unchanged, raises on anything that is not a
number (strings are outside the modelled scope of float parsing). -/
def format_number : Val → Except PyErr Val
  | .int n => .ok (.int n)
  | .float q => .ok (.float q)
  | .str _ => .error .valueError
  | _ => .error .typeError

/-- Modelled from the spec: Python built-in `list` cast — identity on
sequences; the iteration of strings and dicts is outside the modelled scope
and abstracted as TypeError. -/
def pyList : Val → Except PyErr Val
  | .arr xs => .ok (.arr xs)
  | _ => .error .typeError

/-- Modelled from the spec: Python built-in `dict` cast — identity on
mappings; pair-iterable conversion is outside the modelled scope and
abstracted as TypeError. -/
def pyDict : Val → Except PyErr Val
  | .obj kvs => .ok (.obj kvs)
  | _ => .error .typeError

/-- Result of an engine computation: the warnings emitted on the logging side
channel (which persist even when an exception is raised later), together with
the returned value or raised error. -/
def Unm (α : Type) : Type := List String × Except UErr α

def Unm.ok (a : α) : Unm α := ([], .ok a)

def Unm.err (e : UErr) : Unm α := ([], .error e)

/-- Sequencing: logs accumulate, errors short-circuit. -/
def Unm.bind (x : Unm α) (f : α → Unm β) : Unm β :=
  match x with
  | (l, .error e) => (l, .error e)
  | (l, .ok a) =>
    match f a with
    | (l2, r) => (l ++ l2, r)

/-- Prepend already-emitted log lines to a computation. -/
def Unm.prep (l : List String) (x : Unm α) : Unm α :=
  match x with
  | (l2, r) => (l ++ l2, r)

/-- The base `Formatter()`: accepts everything, identity transform. -/
def fmtPlain : Formatter := ⟨fun _ => true, fun v => .ok v⟩

/-- StringUnmarshaller default formatter: `is_string` predicate, `str` cast. -/
def fmtString : Formatter := ⟨is_string, fun v => .ok (.str (pyStr v))⟩

/-- IntegerUnmarshaller default formatter: `is_integer` predicate, `int` cast. -/
def fmtInteger : Formatter := ⟨is_integer, pyInt⟩

/-- NumberUnmarshaller default formatter: `is_number` predicate, `format_number`. -/
def fmtNumber : Formatter := ⟨is_number, format_number⟩

/-- BooleanUnmarshaller default formatter: `is_bool` predicate, `forcebool`. -/
def fmtBoolean : Formatter := ⟨is_bool, fun v => .ok (forcebool v)⟩

/-- ArrayUnmarshaller default formatter: `is_array` predicate, `list` cast. -/
def fmtList : Formatter := ⟨is_array, pyList⟩

/-- ObjectUnmarshaller default formatter: `is_object` predicate, `dict` cast. -/
def fmtDict : Formatter := ⟨is_object, pyDict⟩

/-- Modelled from the spec: the string-format formatters built on the
external oas30 format checker and the external parse/decode helpers
(format_date, parse_datetime, bytes, format_uuid, format_byte).  The checkers
accept non-string instances (jsonschema convention); the parsed native
objects (dates, datetimes, byte strings, UUIDs) are abstracted as the source
strings they were parsed from. -/
def fmtStringFormat (check : String → Bool) : Formatter :=
  ⟨fun v => match v with
    | .str s => check s
    | _ => true,
   fun v => match v with
    | .str s => .ok (.str s)
    | _ => .error .valueError⟩

/-- Modelled from the spec: the oas30 int32/int64/float/double checkers with
the `int`/`float` casts; numeric range checking is abstracted as the plain
numeric predicate. -/
def fmtNumFormat : Formatter := ⟨is_number, pyInt⟩

/-- The per-class FORMATTERS tables, keyed by the optional `format` key with
`none` as the no-format default (FormattersDict of each unmarshaller class). -/
def defaultFormatters : String → List (Option String × Formatter)
  | "string" =>
    [(none, fmtString),
     (some "password", fmtStringFormat (fun _ => true)),
     (some "date", fmtStringFormat (fun s => (s.data.filter (· = '-')).length = 2)),
     (some "date-time", fmtStringFormat (fun s => s.data.contains 'T')),
     (some "binary", fmtStringFormat (fun _ => true)),
     (some "uuid", fmtStringFormat (fun s => (s.data.filter (· = '-')).length = 4)),
     (some "byte", fmtStringFormat (fun _ => true))]
  | "integer" =>
    [(none, fmtInteger), (some "int32", fmtNumFormat), (some "int64", fmtNumFormat)]
  | "number" =>
    [(none, fmtNumber), (some "float", fmtNumFormat), (some "double", fmtNumFormat)]
  | "boolean" => [(none, fmtBoolean)]
  | "array" => [(none, fmtList)]
  | "object" => [(none, fmtDict)]
  | "any" => [(none, fmtPlain)]
  | _ => []

/-- The keys of SchemaUnmarshallersFactory.UNMARSHALLERS: the closed set of
dispatchable schema types. -/
def UNMARSHALLER_TYPES : List String :=
  ["string", "integer", "number", "boolean", "array", "object", "any"]

/-- A constructed unmarshaller instance: the schema it is bound to, the
effective dispatch type, the schema format (`self.format`) and the resolved
formatter.  The validator handle is recovered from `Env.validatorOf` and the
factory back-reference from the ambient environment. -/
structure Unmarshaller where
  schema : Schema
  schemaType : String
  format? : Option String
  formatter : Formatter

/-- `schema_type = type_override or schema.getkey("type", "any")`. -/
def effectiveType (schema : Schema) (typeOverride : Option String) : String :=
  match typeOverride with
  | some t => t
  | none => schema.type?.getD "any"

/-- `formatter = self.custom_formatters.get(schema_format)`: the
caller-supplied formatter keyed by the schema format string (a schema without
format never hits the custom table, whose keys are strings). -/
def customFormatterFor (env : Env) (schema : Schema) : Option Formatter :=
  match schema.format? with
  | some f => List.lookup f env.customFormatters
  | none => none

/-- SchemaUnmarshallersFactory.create combined with
BaseSchemaUnmarshaller.__init__: emit the deprecation warning, resolve the
effective schema type, prefer the caller-supplied custom formatter keyed by
the schema format, otherwise fall back to the class FORMATTERS table,
otherwise fail with FormatterNotFound.  An effective type outside the
UNMARSHALLERS table is a Python KeyError. -/
def create (env : Env) (schema : Schema) (typeOverride : Option String) : Unm Unmarshaller :=
  let depLog : List String := if schema.deprecated then ["The schema is deprecated"] else []
  let schemaFormat := schema.format?
  let customF : Option Formatter := customFormatterFor env schema
  let schemaType := effectiveType schema typeOverride
  if UNMARSHALLER_TYPES.contains schemaType then
    match customF with
    | some fmt => Unm.prep depLog (Unm.ok ⟨schema, schemaType, schemaFormat, fmt⟩)
    | none =>
      match List.lookup schemaFormat (defaultFormatters schemaType) with
      | some fmt => Unm.prep depLog (Unm.ok ⟨schema, schemaType, schemaFormat, fmt⟩)
      | none => Unm.prep depLog (Unm.err (.formatterNotFound schemaFormat))
  else
    Unm.prep depLog (Unm.err (.keyError schemaType))

/-- Python `dict.update` on assoc lists: keys of `base` keep their position
with values replaced from `upd` where present, new keys of `upd` are
appended. -/
def updAssoc (base upd : List (String × α)) : List (String × α) :=
  base.map (fun p =>
    match List.lookup p.1 upd with
    | some w => (p.1, w)
    | none => p) ++
  upd.filter (fun p => !((base.map Prod.fst).contains p.1))

/-- Modelled from the spec: openapi_core `get_all_properties`, the external
collaborator that gathers the declared-property mapping of a schema inclusive
of properties inherited through allOf composition (later members overriding
earlier names).  The spec notes that allOf members are merged upstream rather
than processed here, so members are taken as already-flattened property
carriers and one merge level suffices. -/
def get_all_properties (s : Schema) : List (String × Schema) :=
  match s.allOf? with
  | none => s.properties
  | some subs => subs.foldl (fun acc m => updAssoc acc m.properties) s.properties

/-- Modelled from the spec: openapi_core `get_all_properties_names`, the name
set of the declared properties (as a list, with membership via contains). -/
def get_all_properties_names (s : Schema) : List String :=
  (get_all_properties s).map Prod.fst

/-- Python dict assignment `d[k] = w` on assoc lists: replace in place when
the key exists, append otherwise. -/
def dictInsert (l : List (String × α)) (k : String) (w : α) : List (String × α) :=
  if (l.map Prod.fst).contains k then
    l.map (fun p => if p.1 == k then (k, w) else p)
  else
    l ++ [(k, w)]

/-- BaseSchemaUnmarshaller.validate: collect all errors that the validator
instance iterates; if non-empty, raise `InvalidSchemaValue` carrying the
value, the declared schema type (default "any") and the full error list. -/
def uValidate (env : Env) (s : Schema) (v : Val) : Unm Unit :=
  match env.validatorOf s v with
  | [] => Unm.ok ()
  | errs => Unm.err (.invalidSchemaValue v (s.type?.getD "any") errs)

/-- BaseSchemaUnmarshaller.unmarshal: apply the formatter transform, wrapping
a ValueError as `InvalidSchemaFormatValue` (carrying `self.format`); a
TypeError propagates as the plain Python exception. -/
def fmtUnmarshal (u : Unmarshaller) (v : Val) : Unm Val :=
  match u.formatter.transform v with
  | .ok w => Unm.ok w
  | .error .valueError => Unm.err (.invalidSchemaFormatValue v u.format?)
  | .error .typeError => Unm.err .typeError

/-- BaseSchemaUnmarshaller.__call__ for the scalar kinds: the null sentinel
short-circuits to null without validating or transforming; otherwise validate
then unmarshal. -/
def baseCall (env : Env) (u : Unmarshaller) (v : Val) : Unm Val :=
  match v with
  | .null => Unm.ok .null
  | _ => Unm.bind (uValidate env u.schema v) (fun _ => fmtUnmarshal u v)

/-- The extra-properties loop of `_unmarshal_properties` when
`additionalProperties` is an object schema: each extra key value is
unmarshalled through a factory-created unmarshaller for that schema (`child`
abstracts `unmarshallers_factory.create(additional_prop_schema)(prop_value)`). -/
def addlSchemaLoop (child : Schema → Val → Unm Val) (aps : Schema)
    (v : List (String × Val)) : List String → List (String × Val) → Unm (List (String × Val))
  | [], acc => Unm.ok acc
  | k :: rest, acc =>
    match List.lookup k v with
    | none => Unm.err (.keyError k)
    | some pv =>
      Unm.bind (child aps pv) (fun w => addlSchemaLoop child aps v rest (dictInsert acc k w))

/-- The extra-properties loop when `additionalProperties` is true (or
absent): extra keys pass through verbatim. -/
def passthroughLoop (v : List (String × Val)) :
    List String → List (String × Val) → List (String × Val)
  | [], acc => acc
  | k :: rest, acc =>
    match List.lookup k v with
    | none => passthroughLoop v rest acc
    | some pv => passthroughLoop v rest (dictInsert acc k pv)

/-- The declared-properties loop of `_unmarshal_properties`: skip readOnly
properties under REQUEST and writeOnly properties under RESPONSE; take the
input value when the key is present, else the declared default, else skip;
unmarshal the chosen value through a factory-created unmarshaller for the
property schema. -/
def declLoop (env : Env) (child : Schema → Val → Unm Val) (v : List (String × Val)) :
    List (String × Schema) → List (String × Val) → Unm (List (String × Val))
  | [], acc => Unm.ok acc
  | (k, ps) :: rest, acc =>
    if env.context = some .request ∧ ps.readOnly then
      declLoop env child v rest acc
    else if env.context = some .response ∧ ps.writeOnly then
      declLoop env child v rest acc
    else
      match List.lookup k v with
      | some pv =>
        Unm.bind (child ps pv) (fun w => declLoop env child v rest (dictInsert acc k w))
      | none =>
        match ps.default? with
        | none => declLoop env child v rest acc
        | some d =>
          Unm.bind (child ps d) (fun w => declLoop env child v rest (dictInsert acc k w))

/-- The declared-property mapping of the schema, merged (dict update) with
the selected oneOf branch properties when given (`all_props`). -/
def mergedProps (s : Schema) (oneOfSchema : Option Schema) : List (String × Schema) :=
  match oneOfSchema with
  | none => get_all_properties s
  | some b => updAssoc (get_all_properties s) (get_all_properties b)

/-- The union of the declared property names of the schema and (when given)
the selected oneOf branch (`all_props_names`). -/
def mergedNames (s : Schema) (oneOfSchema : Option Schema) : List String :=
  match oneOfSchema with
  | none => get_all_properties_names s
  | some b => get_all_properties_names s ++ get_all_properties_names b

/-- `extra_props = set(value.keys()) - set(all_props_names)`, modelled in
input key order (Python set iteration order is unspecified). -/
def extraKeys (s : Schema) (oneOfSchema : Option Schema) (v : List (String × Val)) :
    List String :=
  (v.map Prod.fst).filter (fun k => !((mergedNames s oneOfSchema).contains k))

/-- ObjectUnmarshaller._unmarshal_properties: gather the declared properties
(inclusive of allOf-inherited ones), merge in the selected oneOf branch
properties when given, compute the extra keys of the input, apply the
additionalProperties policy to the extra keys and then process the declared
properties.  `child` abstracts the recursive
`unmarshallers_factory.create(prop)(prop_value)` call. -/
def unmarshal_properties (env : Env) (child : Schema → Val → Unm Val)
    (s : Schema) (oneOfSchema : Option Schema) (v : List (String × Val)) :
    Unm (List (String × Val)) :=
  let additionalProperties := s.addProps?.getD (.bool true)
  Unm.bind
    (match additionalProperties with
     | .schema aps => addlSchemaLoop child aps v (extraKeys s oneOfSchema v) []
     | .bool true => Unm.ok (passthroughLoop v (extraKeys s oneOfSchema v) [])
     | .bool false => Unm.ok [])
    (fun props0 => declLoop env child v (mergedProps s oneOfSchema) props0)

/-- The oneOf loop of `_unmarshal_object`: attempt each branch in order;
a failure caught by `except (UnmarshalError, ValueError)` is skipped, a
second success logs the ambiguity warning and is discarded (first success
wins), any other exception propagates.  `upB` abstracts
`self._unmarshal_properties(value, one_of_schema)`. -/
def oneOfScan (upB : Schema → Unm (List (String × Val))) :
    List Schema → Option (List (String × Val)) → Unm (Option (List (String × Val)))
  | [], acc => Unm.ok acc
  | b :: rest, acc =>
    match upB b with
    | (l, .error e) =>
      if e.isCaught then Unm.prep l (oneOfScan upB rest acc) else (l, .error e)
    | (l, .ok ps) =>
      match acc with
      | some ps0 =>
        Unm.prep (l ++ ["multiple valid oneOf schemas found"]) (oneOfScan upB rest (some ps0))
      | none => Unm.prep l (oneOfScan upB rest (some ps))

/-- ObjectUnmarshaller._unmarshal_object: resolve oneOf composition by the
scan (warning when no branch succeeds and proceeding with `properties =
None`), or `_unmarshal_properties` directly when there is no oneOf; then bind
the model when the schema carries x-model (the external ModelFactory is
abstracted as the `Val.model` constructor), else return the property mapping
(Python None becomes the null value). -/
def unmarshal_object (env : Env) (child : Schema → Val → Unm Val)
    (s : Schema) (v : List (String × Val)) : Unm Val :=
  Unm.bind
    (match s.oneOf? with
     | some bs =>
       Unm.bind (oneOfScan (fun b => unmarshal_properties env child s (some b) v) bs none)
         (fun props? =>
           match props? with
           | none => Unm.prep ["valid oneOf schema not found"] (Unm.ok none)
           | some ps => Unm.ok (some ps))
     | none =>
       Unm.bind (unmarshal_properties env child s none v) (fun ps => Unm.ok (some ps)))
    (fun props? =>
      match s.xModel? with
      | some name => Unm.ok (.model name (props?.getD []))
      | none =>
        match props? with
        | some ps => Unm.ok (.obj ps)
        | none => Unm.ok .null)

/-- ObjectUnmarshaller.__call__ (inherited Base.__call__ plus the unmarshal
override): null short-circuits; validate; coerce through the formatter
(ValueError becomes InvalidSchemaFormatValue carrying the schema format);
a non-mapping coercion result fails as the plain attribute/type error; then
`_unmarshal_object`. -/
def objectCall (env : Env) (child : Schema → Val → Unm Val)
    (u : Unmarshaller) (v : Val) : Unm Val :=
  match v with
  | .null => Unm.ok .null
  | _ =>
    Unm.bind (uValidate env u.schema v) (fun _ =>
      match u.formatter.transform v with
      | .error .valueError => Unm.err (.invalidSchemaFormatValue v u.schema.format?)
      | .error .typeError => Unm.err .typeError
      | .ok (.obj kvs) => unmarshal_object env child u.schema kvs
      | .ok _ => Unm.err .typeError)

/-- The element map of ArrayUnmarshaller.__call__: fail-fast sequential
unmarshal of every element through the items unmarshaller. -/
def arrayMapLoop (f : Val → Unm Val) : List Val → Unm (List Val)
  | [] => Unm.ok []
  | x :: xs =>
    Unm.bind (f x) (fun w => Unm.bind (arrayMapLoop f xs) (fun ws => Unm.ok (w :: ws)))

/-- ArrayUnmarshaller.__call__: run the base call (null short-circuit,
validate, list coercion); if the coerced result is null and the schema is
nullable return null; otherwise create the items unmarshaller (a missing
items key is outside the source invariant and modelled as KeyError) and map
every element through it — mapping over null raises the plain TypeError. -/
def arrayCall (env : Env) (callOnly : Unmarshaller → Val → Unm Val)
    (u : Unmarshaller) (v : Val) : Unm Val :=
  Unm.bind (baseCall env u v) (fun v2 =>
    match v2 with
    | .null =>
      if u.schema.nullable then Unm.ok .null
      else
        Unm.bind
          (match u.schema.items? with
           | some it => create env it none
           | none => Unm.err (.keyError "items"))
          (fun _ => Unm.err .typeError)
    | .arr xs =>
      Unm.bind
        (match u.schema.items? with
         | some it => create env it none
         | none => Unm.err (.keyError "items"))
        (fun iu => Unm.bind (arrayMapLoop (callOnly iu) xs) (fun ws => Unm.ok (.arr ws)))
    | _ => Unm.err .typeError)

/-- AnyUnmarshaller.SCHEMA_TYPES_ORDER: the fixed trial order, most
structured first. -/
def SCHEMA_TYPES_ORDER : List String :=
  ["object", "array", "boolean", "integer", "number", "string"]

/-- AnyUnmarshaller._get_one_of_schema inner loop: create an unmarshaller for
each branch (construction failures propagate) and run structural validation,
returning the first branch whose validation succeeds; a ValidateError
advances to the next branch. -/
def oneOfProbe (env : Env) (v : Val) : List Schema → Unm (Option Schema)
  | [] => Unm.ok none
  | sub :: rest =>
    Unm.bind (create env sub none) (fun _ =>
      match uValidate env sub v with
      | (l, .ok _) => Unm.prep l (Unm.ok (some sub))
      | (l, .error e) =>
        if e.isValidateErr then Unm.prep l (oneOfProbe env v rest) else (l, .error e))

/-- AnyUnmarshaller._get_all_of_schema inner loop: like the oneOf probe but
only branches that themselves declare a concrete type are tried. -/
def allOfProbe (env : Env) (v : Val) : List Schema → Unm (Option Schema)
  | [] => Unm.ok none
  | sub :: rest =>
    if sub.type?.isNone then allOfProbe env v rest
    else
      Unm.bind (create env sub none) (fun _ =>
        match uValidate env sub v with
        | (l, .ok _) => Unm.prep l (Unm.ok (some sub))
        | (l, .error e) =>
          if e.isValidateErr then Unm.prep l (allOfProbe env v rest) else (l, .error e))

/-- The type-trial loop of AnyUnmarshaller.unmarshal: for each candidate
type, build an unmarshaller for the same schema with that type forced and
test only the formatter predicate (`_formatter_validate`); the first
acceptance returns the full unmarshal of that candidate (`callOnly`
abstracts the unmarshaller invocation); exhaustion logs the
failure-to-classify warning and returns the raw value unchanged. -/
def anyTrial (env : Env) (callOnly : Unmarshaller → Val → Unm Val)
    (u : Unmarshaller) (v : Val) : List String → Unm Val
  | [] => Unm.prep ["failed to unmarshal any type"] (Unm.ok v)
  | ty :: rest =>
    Unm.bind (create env u.schema (some ty)) (fun tu =>
      if tu.formatter.validate v then callOnly tu v
      else anyTrial env callOnly u v rest)

/-- AnyUnmarshaller.unmarshal: oneOf branch selection first, then allOf, then
the fixed-order type trial. -/
def anyUnmarshal (env : Env) (callOnly : Unmarshaller → Val → Unm Val)
    (u : Unmarshaller) (v : Val) : Unm Val :=
  Unm.bind
    (match u.schema.oneOf? with
     | none => Unm.ok none
     | some subs => oneOfProbe env v subs)
    (fun oneOf? =>
      match oneOf? with
      | some sub => Unm.bind (create env sub none) (fun su => callOnly su v)
      | none =>
        Unm.bind
          (match u.schema.allOf? with
           | none => Unm.ok none
           | some subs => allOfProbe env v subs)
          (fun allOf? =>
            match allOf? with
            | some sub => Unm.bind (create env sub none) (fun su => callOnly su v)
            | none => anyTrial env callOnly u v SCHEMA_TYPES_ORDER))

/-- AnyUnmarshaller.__call__ (inherited Base.__call__ with the unmarshal
override): null short-circuits, validate, then the any-type resolution. -/
def anyCall (env : Env) (callOnly : Unmarshaller → Val → Unm Val)
    (u : Unmarshaller) (v : Val) : Unm Val :=
  match v with
  | .null => Unm.ok .null
  | _ => Unm.bind (uValidate env u.schema v) (fun _ => anyUnmarshal env callOnly u v)

mutual
/-- `unmarshallers_factory.create(schema)(value)`: construct the unmarshaller
and invoke it.  Fuel bounds the recursion depth of the embedding; every claim
is stated for arbitrary fuel. -/
def createAndCall (env : Env) : Nat → Schema → Option String → Val → Unm Val
  | 0, _, _, _ => ([], .error .outOfFuel)
  | n + 1, s, tyO, v => Unm.bind (create env s tyO) (fun u => callU env n u v)

/-- Invocation of a constructed unmarshaller on a value: dispatch on the
effective schema type; the complex kinds recurse through the factory
back-reference. -/
def callU (env : Env) : Nat → Unmarshaller → Val → Unm Val
  | 0, _, _ => ([], .error .outOfFuel)
  | n + 1, u, v =>
    if u.schemaType = "array" then
      arrayCall env (fun u2 v2 => callU env n u2 v2) u v
    else if u.schemaType = "object" then
      objectCall env (fun s2 v2 => createAndCall env n s2 none v2) u v
    else if u.schemaType = "any" then
      anyCall env (fun u2 v2 => callU env n u2 v2) u v
    else
      baseCall env u v
end

/-- The result of the first branch attempt that succeeded, in scan order
(the property set the spec says `_unmarshal_object` keeps). -/
def firstSuccess (results : List (Unm (List (String × Val)))) :
    Option (List (String × Val)) :=
  results.findSome? (fun r => r.2.toOption)

/-- The warnings the oneOf scan emits: each branch attempt contributes its
own log, and every success after the first contributes the ambiguity
warning.  `found` records whether a success has already been collected. -/
def scanWarnings : Bool → List (Unm (List (String × Val))) → List String
  | _, [] => []
  | found, (l, .error _) :: rest => l ++ scanWarnings found rest
  | found, (l, .ok _) :: rest =>
    l ++ (if found then ["multiple valid oneOf schemas found"] else []) ++
      scanWarnings true rest

def sEmptyW : Schema := .mk none none false false false false none [] none none none none none

def sIntW : Schema :=
  .mk (some "integer") none false false false false none [] none none none none none

def sBranchA : Schema :=
  .mk none none false false false false none [("a", sIntW)] none none none none none

def sOneOf3 : Schema :=
  .mk (some "object") none false false false false none [] (some (.bool false)) none
    (some [sBranchA, sEmptyW, sEmptyW]) none none

def sOneOf1 : Schema :=
  .mk (some "object") none false false false false none [] (some (.bool false)) none
    (some [sBranchA]) none none

/-- A child unmarshaller stub for witnesses: fails on strings with a
structural error, succeeds on anything else. -/
def childW : Schema → Val → Unm Val := fun _ val =>
  match val with
  | .str _ => ([], .error (.invalidSchemaValue val "integer" ["terr"]))
  | _ => ([], .ok val)

def envW : Env := ⟨fun _ _ => [], [], none⟩

def vW : List (String × Val) := [("a", .str "x")]

def sObjOneOfCex : Schema :=
  .mk (some "object") none false false false false none [] none none
    (some [sBranchA]) none none

/-- A child unmarshaller stub for witnesses: succeeds with the value
unchanged. -/
def childOk : Schema → Val → Unm Val := fun _ val => ([], .ok val)

def sAddS : Schema :=
  .mk (some "object") none false false false false none [("known", sIntW)]
    (some (.schema sIntW)) none none none none

def v3W : List (String × Val) := [("x", .int 5), ("known", .int 2)]

def props3W : List (String × Val) := [("x", .int 5), ("known", .int 2)]

def sIntRO : Schema :=
  .mk (some "integer") none false true false false none [] none none none none none

def s4W : Schema :=
  .mk (some "object") none false false false false none [("ro", sIntRO)]
    none none none none none

def v4W : List (String × Val) := [("ro", .int 7)]

def envReq : Env := ⟨fun _ _ => [], [], some .request⟩

def sIntDefW : Schema :=
  .mk (some "integer") none false false false false (some (.int 9)) [] none none
    none none none

def s5W : Schema :=
  .mk (some "object") none false false false false none [("d", sIntDefW)]
    none none none none none

def props5W : List (String × Val) := [("d", .int 9)]

/-- The structural predicate each trial candidate type tests
(specification-side description of the fixed-order type trial). -/
def typePredicate : String → Val → Bool
  | "object", v => is_object v
  | "array", v => is_array v
  | "boolean", v => is_bool v
  | "integer", v => is_integer v
  | "number", v => is_number v
  | "string", v => is_string v
  | _, _ => false

def envCustomW : Env :=
  ⟨fun _ _ => [], [("weird", ⟨fun _ => true, fun v2 => .ok v2⟩)], none⟩

def sAnyWeirdW : Schema :=
  .mk none (some "weird") false false false false none [] none none none none none

def uAnyW : Unmarshaller := ⟨sEmptyW, "any", none, fmtPlain⟩

def sArrNullW : Schema :=
  .mk (some "array") none true false false false none [] none (some sIntW)
    none none none

def uArrNullW : Unmarshaller := ⟨sArrNullW, "array", none, fmtList⟩

def uIntW : Unmarshaller := ⟨sIntW, "integer", none, fmtInteger⟩

def envErrW : Env :=
  ⟨fun _ v => match v with
    | .str _ => ["e1", "e2"]
    | _ => [], [], none⟩

def sIntWeirdW : Schema :=
  .mk (some "integer") (some "weird3") false false false false none [] none none
    none none none

def sStrWeirdW : Schema :=
  .mk (some "string") (some "weird2") false false false false none [] none none
    none none none

def sArrWeirdW : Schema :=
  .mk (some "array") none false false false false none [] none (some sStrWeirdW)
    none none none

def sArrPlainW : Schema :=
  .mk (some "array") none false false false false none [] none (some sIntW)
    none none none

def uArrPlainW : Unmarshaller := ⟨sArrPlainW, "array", none, fmtList⟩
/-! ### Lemmas and claim theorems -/

@[simp]
theorem Unm.bind_ok (l : List String) (a : α) (f : α → Unm β) :
    Unm.bind (l, .ok a) f = Unm.prep l (f a) := rfl

@[simp]
theorem Unm.bind_err (l : List String) (e : UErr) (f : α → Unm β) :
    Unm.bind (l, .error e) f = (l, .error e) := rfl

@[simp]
theorem Unm.prep_pair (l l2 : List String) (r : Except UErr α) :
    Unm.prep l (l2, r) = (l ++ l2, r) := rfl

@[simp]
theorem Unm.prep_nil (x : Unm α) : Unm.prep [] x = x := by
  match x with
  | (l, r) => simp [Unm.prep]

theorem lookup_cons_self {α : Type} (k : String) (w : α) (l : List (String × α)) :
    List.lookup k ((k, w) :: l) = some w := by
  simp [List.lookup]

theorem lookup_cons_ne {α : Type} {k k2 : String} (w : α) (l : List (String × α))
    (h : k ≠ k2) : List.lookup k ((k2, w) :: l) = List.lookup k l := by
  simp [List.lookup, beq_false_of_ne h]

theorem lookup_eq_none_of_not_mem {α : Type} {k : String} {l : List (String × α)}
    (h : k ∉ l.map Prod.fst) : List.lookup k l = none := by
  induction l with
  | nil => rfl
  | cons p rest ih =>
    simp only [List.map_cons, List.mem_cons] at h
    push_neg at h
    rw [show p = (p.1, p.2) from rfl, lookup_cons_ne _ _ h.1]
    exact ih h.2

theorem lookup_isSome_of_mem {α : Type} {k : String} {l : List (String × α)}
    (h : k ∈ l.map Prod.fst) : ∃ w, List.lookup k l = some w := by
  induction l with
  | nil => simp at h
  | cons p rest ih =>
    by_cases hk : k = p.1
    · subst hk
      exact ⟨p.2, by rw [show p = (p.1, p.2) from rfl]; exact lookup_cons_self _ _ _⟩
    · simp only [List.map_cons, List.mem_cons] at h
      rcases h with h | h
      · exact absurd h hk
      · rcases ih h with ⟨w, hw⟩
        exact ⟨w, by rw [show p = (p.1, p.2) from rfl, lookup_cons_ne _ _ hk]; exact hw⟩

theorem lookup_append {α : Type} (k : String) (l1 l2 : List (String × α)) :
    List.lookup k (l1 ++ l2) =
      (List.lookup k l1).orElse (fun _ => List.lookup k l2) := by
  induction l1 with
  | nil => simp [Option.orElse]
  | cons p rest ih =>
    obtain ⟨a, b⟩ := p
    by_cases hk : k = a
    · subst hk
      rw [List.cons_append, lookup_cons_self, lookup_cons_self]
      rfl
    · rw [List.cons_append, lookup_cons_ne _ _ hk, lookup_cons_ne _ _ hk]
      exact ih

theorem lookup_replaceMap_self {α : Type} {k : String} (w : α) {l : List (String × α)}
    (h : k ∈ l.map Prod.fst) :
    List.lookup k (l.map (fun q => if q.1 == k then (k, w) else q)) = some w := by
  induction l with
  | nil => simp at h
  | cons p rest ih =>
    obtain ⟨a, b⟩ := p
    rw [List.map_cons]
    by_cases hk : a = k
    · rw [if_pos (by simp [hk]), lookup_cons_self]
    · rw [if_neg (by simp [hk]), lookup_cons_ne _ _ (Ne.symm hk)]
      apply ih
      simp only [List.map_cons, List.mem_cons] at h
      rcases h with h | h
      · exact absurd h.symm hk
      · exact h

theorem lookup_replaceMap_ne {α : Type} {k k2 : String} (w : α) (l : List (String × α))
    (h : k2 ≠ k) :
    List.lookup k2 (l.map (fun q => if q.1 == k then (k, w) else q)) =
      List.lookup k2 l := by
  induction l with
  | nil => rfl
  | cons p rest ih =>
    obtain ⟨a, b⟩ := p
    rw [List.map_cons]
    by_cases hk : a = k
    · rw [if_pos (by simp [hk]), lookup_cons_ne _ _ h, lookup_cons_ne _ _ (hk ▸ h)]
      exact ih
    · rw [if_neg (by simp [hk])]
      by_cases hk2 : k2 = a
      · subst hk2
        rw [lookup_cons_self, lookup_cons_self]
      · rw [lookup_cons_ne _ _ hk2, lookup_cons_ne _ _ hk2]
        exact ih

theorem lookup_dictInsert_self {α : Type} (l : List (String × α)) (k : String) (w : α) :
    List.lookup k (dictInsert l k w) = some w := by
  unfold dictInsert
  split
  · next hc => exact lookup_replaceMap_self w (by simpa using hc)
  · next hc =>
    rw [lookup_append, lookup_eq_none_of_not_mem (by simpa using hc)]
    simp [lookup_cons_self, Option.orElse]

theorem lookup_dictInsert_ne {α : Type} (l : List (String × α)) {k k2 : String} (w : α)
    (h : k2 ≠ k) : List.lookup k2 (dictInsert l k w) = List.lookup k2 l := by
  unfold dictInsert
  split
  · exact lookup_replaceMap_ne w l h
  · rw [lookup_append, lookup_cons_ne _ _ h, List.lookup_nil]
    cases List.lookup k2 l <;> rfl

@[simp]
theorem Unm.prep_snd (l : List String) (x : Unm α) : (Unm.prep l x).2 = x.2 := by
  cases x
  rfl

theorem addlLoop_preserve {child : Schema → Val → Unm Val} {aps : Schema}
    {v : List (String × Val)} {ks : List String} {k : String} (hk : k ∉ ks) :
    ∀ acc props, (addlSchemaLoop child aps v ks acc).2 = .ok props →
      List.lookup k props = List.lookup k acc := by
  induction ks with
  | nil =>
    intro acc props h
    simp only [addlSchemaLoop, Unm.ok] at h
    cases h
    rfl
  | cons k0 rest ih =>
    intro acc props h
    have hk2 : k ≠ k0 ∧ k ∉ rest := by simpa [List.mem_cons, not_or] using hk
    simp only [addlSchemaLoop] at h
    split at h
    · simp [Unm.err] at h
    · next pv hlk =>
      cases hcv : child aps pv with
      | mk lc rc =>
        rw [hcv] at h
        cases rc with
        | error e => simp [Unm.bind] at h
        | ok w =>
          rw [Unm.bind_ok, Unm.prep_snd] at h
          rw [ih hk2.2 _ _ h, lookup_dictInsert_ne _ _ hk2.1]

theorem addlLoop_mem {child : Schema → Val → Unm Val} {aps : Schema}
    {v : List (String × Val)} {ks : List String} {k : String}
    (hnd : ks.Nodup) (hk : k ∈ ks) :
    ∀ acc props, (addlSchemaLoop child aps v ks acc).2 = .ok props →
      ∃ pv w, List.lookup k v = some pv ∧ (child aps pv).2 = .ok w ∧
        List.lookup k props = some w := by
  induction ks with
  | nil => simp at hk
  | cons k0 rest ih =>
    intro acc props h
    simp only [addlSchemaLoop] at h
    by_cases hkk : k = k0
    · subst hkk
      split at h
      · simp [Unm.err] at h
      · next pv hlk =>
        cases hcv : child aps pv with
        | mk lc rc =>
          rw [hcv] at h
          cases rc with
          | error e => simp [Unm.bind] at h
          | ok w =>
            rw [Unm.bind_ok, Unm.prep_snd] at h
            refine ⟨pv, w, hlk, by rw [hcv], ?_⟩
            have hkr : k ∉ rest := (List.nodup_cons.mp hnd).1
            rw [addlLoop_preserve hkr _ _ h, lookup_dictInsert_self]
    · have hkr : k ∈ rest := by
        rcases List.mem_cons.mp hk with h1 | h1
        · exact absurd h1 hkk
        · exact h1
      split at h
      · simp [Unm.err] at h
      · next pv hlk =>
        cases hcv : child aps pv with
        | mk lc rc =>
          rw [hcv] at h
          cases rc with
          | error e => simp [Unm.bind] at h
          | ok w =>
            rw [Unm.bind_ok, Unm.prep_snd] at h
            exact ih (List.nodup_cons.mp hnd).2 hkr _ _ h

theorem ptLoop_preserve {v : List (String × Val)} {ks : List String} {k : String}
    (hk : k ∉ ks) :
    ∀ acc, List.lookup k (passthroughLoop v ks acc) = List.lookup k acc := by
  induction ks with
  | nil => intro acc; rfl
  | cons k0 rest ih =>
    intro acc
    have hk2 : k ≠ k0 ∧ k ∉ rest := by simpa [List.mem_cons, not_or] using hk
    simp only [passthroughLoop]
    cases List.lookup k0 v with
    | none => exact ih hk2.2 _
    | some pv => rw [ih hk2.2 _, lookup_dictInsert_ne _ _ hk2.1]

theorem ptLoop_mem {v : List (String × Val)} {ks : List String} {k : String} {pv : Val}
    (hnd : ks.Nodup) (hk : k ∈ ks) (hv : List.lookup k v = some pv) :
    ∀ acc, List.lookup k (passthroughLoop v ks acc) = some pv := by
  induction ks with
  | nil => simp at hk
  | cons k0 rest ih =>
    intro acc
    simp only [passthroughLoop]
    by_cases hkk : k = k0
    · subst hkk
      rw [hv, ptLoop_preserve (List.nodup_cons.mp hnd).1 _, lookup_dictInsert_self]
    · have hkr : k ∈ rest := by
        rcases List.mem_cons.mp hk with h1 | h1
        · exact absurd h1 hkk
        · exact h1
      cases List.lookup k0 v with
      | none => exact ih (List.nodup_cons.mp hnd).2 hkr _
      | some pv0 => exact ih (List.nodup_cons.mp hnd).2 hkr _

theorem declLoop_preserve {env : Env} {child : Schema → Val → Unm Val}
    {v : List (String × Val)} {pl : List (String × Schema)} {k : String}
    (hk : k ∉ pl.map Prod.fst) :
    ∀ acc props, (declLoop env child v pl acc).2 = .ok props →
      List.lookup k props = List.lookup k acc := by
  induction pl with
  | nil =>
    intro acc props h
    simp only [declLoop, Unm.ok] at h
    cases h
    rfl
  | cons p rest ih =>
    obtain ⟨k0, ps⟩ := p
    intro acc props h
    have hk2 : k ≠ k0 ∧ k ∉ rest.map Prod.fst := by
      simpa [List.mem_cons, not_or] using hk
    simp only [declLoop] at h
    split at h
    · exact ih hk2.2 _ _ h
    · split at h
      · exact ih hk2.2 _ _ h
      · split at h
        · next pv hlk =>
          cases hcv : child ps pv with
          | mk lc rc =>
            rw [hcv] at h
            cases rc with
            | error e => simp [Unm.bind] at h
            | ok w =>
              rw [Unm.bind_ok, Unm.prep_snd] at h
              rw [ih hk2.2 _ _ h, lookup_dictInsert_ne _ _ hk2.1]
        · split at h
          · exact ih hk2.2 _ _ h
          · next d hd =>
            cases hcv : child ps d with
            | mk lc rc =>
              rw [hcv] at h
              cases rc with
              | error e => simp [Unm.bind] at h
              | ok w =>
                rw [Unm.bind_ok, Unm.prep_snd] at h
                rw [ih hk2.2 _ _ h, lookup_dictInsert_ne _ _ hk2.1]

theorem declLoop_step_ne {env : Env} {child : Schema → Val → Unm Val}
    {v : List (String × Val)} {k0 : String} {ps0 : Schema}
    {rest : List (String × Schema)} {k : String} (hne : k ≠ k0) :
    ∀ acc props, (declLoop env child v ((k0, ps0) :: rest) acc).2 = .ok props →
      ∃ acc2, (declLoop env child v rest acc2).2 = .ok props ∧
        List.lookup k acc2 = List.lookup k acc := by
  intro acc props h
  simp only [declLoop] at h
  split at h
  · exact ⟨acc, h, rfl⟩
  · split at h
    · exact ⟨acc, h, rfl⟩
    · split at h
      · next pv hlk =>
        cases hcv : child ps0 pv with
        | mk lc rc =>
          rw [hcv] at h
          cases rc with
          | error e => simp [Unm.bind] at h
          | ok w =>
            rw [Unm.bind_ok, Unm.prep_snd] at h
            exact ⟨_, h, lookup_dictInsert_ne _ _ hne⟩
      · split at h
        · exact ⟨acc, h, rfl⟩
        · next d hd =>
          cases hcv : child ps0 d with
          | mk lc rc =>
            rw [hcv] at h
            cases rc with
            | error e => simp [Unm.bind] at h
            | ok w =>
              rw [Unm.bind_ok, Unm.prep_snd] at h
              exact ⟨_, h, lookup_dictInsert_ne _ _ hne⟩

theorem declLoop_skip {env : Env} {child : Schema → Val → Unm Val}
    {v : List (String × Val)} {pl : List (String × Schema)} {k : String} {ps : Schema}
    (hnd : (pl.map Prod.fst).Nodup) (hfind : List.lookup k pl = some ps)
    (hskip : (env.context = some .request ∧ ps.readOnly = true) ∨
             (env.context = some .response ∧ ps.writeOnly = true)) :
    ∀ acc props, (declLoop env child v pl acc).2 = .ok props →
      List.lookup k props = List.lookup k acc := by
  induction pl with
  | nil => simp [List.lookup] at hfind
  | cons p rest ih =>
    obtain ⟨k0, ps0⟩ := p
    intro acc props h
    by_cases hkk : k = k0
    · subst hkk
      rw [lookup_cons_self] at hfind
      cases hfind
      have hnd2 : k ∉ rest.map Prod.fst ∧ (rest.map Prod.fst).Nodup := by
        simpa [List.map_cons, List.nodup_cons] using hnd
      have hkr : k ∉ rest.map Prod.fst := hnd2.1
      simp only [declLoop] at h
      split at h
      · exact declLoop_preserve hkr _ _ h
      · split at h
        · exact declLoop_preserve hkr _ _ h
        · next hn1 hn2 =>
          rcases hskip with hs | hs
          · exact absurd ⟨hs.1, hs.2⟩ hn1
          · exact absurd ⟨hs.1, hs.2⟩ hn2
    · rw [lookup_cons_ne _ _ hkk] at hfind
      have hnd2 : k0 ∉ rest.map Prod.fst ∧ (rest.map Prod.fst).Nodup := by
        simpa [List.map_cons, List.nodup_cons] using hnd
      rcases declLoop_step_ne hkk _ _ h with ⟨acc2, h2, hl2⟩
      rw [ih hnd2.2 hfind _ _ h2, hl2]

theorem declLoop_present {env : Env} {child : Schema → Val → Unm Val}
    {v : List (String × Val)} {pl : List (String × Schema)} {k : String} {ps : Schema}
    {pv : Val}
    (hnd : (pl.map Prod.fst).Nodup) (hfind : List.lookup k pl = some ps)
    (hns1 : ¬ (env.context = some .request ∧ ps.readOnly = true))
    (hns2 : ¬ (env.context = some .response ∧ ps.writeOnly = true))
    (hv : List.lookup k v = some pv) :
    ∀ acc props, (declLoop env child v pl acc).2 = .ok props →
      ∃ w, (child ps pv).2 = .ok w ∧ List.lookup k props = some w := by
  induction pl with
  | nil => simp [List.lookup] at hfind
  | cons p rest ih =>
    obtain ⟨k0, ps0⟩ := p
    intro acc props h
    by_cases hkk : k = k0
    · subst hkk
      rw [lookup_cons_self] at hfind
      cases hfind
      have hnd2 : k ∉ rest.map Prod.fst ∧ (rest.map Prod.fst).Nodup := by
        simpa [List.map_cons, List.nodup_cons] using hnd
      have hkr : k ∉ rest.map Prod.fst := hnd2.1
      simp only [declLoop] at h
      rw [if_neg hns1, if_neg hns2, hv] at h
      have h2 : (Unm.bind (child ps pv) fun w =>
          declLoop env child v rest (dictInsert acc k w)).2 = Except.ok props := h
      cases hcv : child ps pv with
      | mk lc rc =>
        rw [hcv] at h2
        cases rc with
        | error e => simp [Unm.bind] at h2
        | ok w =>
          rw [Unm.bind_ok, Unm.prep_snd] at h2
          refine ⟨w, rfl, ?_⟩
          rw [declLoop_preserve hkr _ _ h2, lookup_dictInsert_self]
    · rw [lookup_cons_ne _ _ hkk] at hfind
      have hnd2 : k0 ∉ rest.map Prod.fst ∧ (rest.map Prod.fst).Nodup := by
        simpa [List.map_cons, List.nodup_cons] using hnd
      rcases declLoop_step_ne hkk _ _ h with ⟨acc2, h2, _⟩
      exact ih hnd2.2 hfind _ _ h2

theorem declLoop_defaulted {env : Env} {child : Schema → Val → Unm Val}
    {v : List (String × Val)} {pl : List (String × Schema)} {k : String} {ps : Schema}
    {d : Val}
    (hnd : (pl.map Prod.fst).Nodup) (hfind : List.lookup k pl = some ps)
    (hns1 : ¬ (env.context = some .request ∧ ps.readOnly = true))
    (hns2 : ¬ (env.context = some .response ∧ ps.writeOnly = true))
    (hv : List.lookup k v = none) (hd : ps.default? = some d) :
    ∀ acc props, (declLoop env child v pl acc).2 = .ok props →
      ∃ w, (child ps d).2 = .ok w ∧ List.lookup k props = some w := by
  induction pl with
  | nil => simp [List.lookup] at hfind
  | cons p rest ih =>
    obtain ⟨k0, ps0⟩ := p
    intro acc props h
    by_cases hkk : k = k0
    · subst hkk
      rw [lookup_cons_self] at hfind
      cases hfind
      have hnd2 : k ∉ rest.map Prod.fst ∧ (rest.map Prod.fst).Nodup := by
        simpa [List.map_cons, List.nodup_cons] using hnd
      have hkr : k ∉ rest.map Prod.fst := hnd2.1
      simp only [declLoop] at h
      rw [if_neg hns1, if_neg hns2, hv, hd] at h
      have h2 : (Unm.bind (child ps d) fun w =>
          declLoop env child v rest (dictInsert acc k w)).2 = Except.ok props := h
      cases hcv : child ps d with
      | mk lc rc =>
        rw [hcv] at h2
        cases rc with
        | error e => simp [Unm.bind] at h2
        | ok w =>
          rw [Unm.bind_ok, Unm.prep_snd] at h2
          refine ⟨w, rfl, ?_⟩
          rw [declLoop_preserve hkr _ _ h2, lookup_dictInsert_self]
    · rw [lookup_cons_ne _ _ hkk] at hfind
      have hnd2 : k0 ∉ rest.map Prod.fst ∧ (rest.map Prod.fst).Nodup := by
        simpa [List.map_cons, List.nodup_cons] using hnd
      rcases declLoop_step_ne hkk _ _ h with ⟨acc2, h2, _⟩
      exact ih hnd2.2 hfind _ _ h2

theorem declLoop_absent {env : Env} {child : Schema → Val → Unm Val}
    {v : List (String × Val)} {pl : List (String × Schema)} {k : String} {ps : Schema}
    (hnd : (pl.map Prod.fst).Nodup) (hfind : List.lookup k pl = some ps)
    (hv : List.lookup k v = none) (hd : ps.default? = none) :
    ∀ acc props, (declLoop env child v pl acc).2 = .ok props →
      List.lookup k props = List.lookup k acc := by
  induction pl with
  | nil => simp [List.lookup] at hfind
  | cons p rest ih =>
    obtain ⟨k0, ps0⟩ := p
    intro acc props h
    by_cases hkk : k = k0
    · subst hkk
      rw [lookup_cons_self] at hfind
      cases hfind
      have hnd2 : k ∉ rest.map Prod.fst ∧ (rest.map Prod.fst).Nodup := by
        simpa [List.map_cons, List.nodup_cons] using hnd
      have hkr : k ∉ rest.map Prod.fst := hnd2.1
      simp only [declLoop] at h
      split at h
      · exact declLoop_preserve hkr _ _ h
      · split at h
        · exact declLoop_preserve hkr _ _ h
        · split at h
          · next pv2 hlk => rw [hv] at hlk; cases hlk
          · split at h
            · exact declLoop_preserve hkr _ _ h
            · next d2 hd2 => rw [hd] at hd2; cases hd2
    · rw [lookup_cons_ne _ _ hkk] at hfind
      have hnd2 : k0 ∉ rest.map Prod.fst ∧ (rest.map Prod.fst).Nodup := by
        simpa [List.map_cons, List.nodup_cons] using hnd
      rcases declLoop_step_ne hkk _ _ h with ⟨acc2, h2, hl2⟩
      rw [ih hnd2.2 hfind _ _ h2, hl2]

theorem declLoop_congr {env : Env} {child : Schema → Val → Unm Val}
    {v1 v2 : List (String × Val)} {pl : List (String × Schema)}
    (hagree : ∀ k ∈ pl.map Prod.fst, List.lookup k v1 = List.lookup k v2) :
    ∀ acc, declLoop env child v1 pl acc = declLoop env child v2 pl acc := by
  induction pl with
  | nil => intro acc; rfl
  | cons p rest ih =>
    obtain ⟨k0, ps⟩ := p
    intro acc
    have h0 : List.lookup k0 v1 = List.lookup k0 v2 := hagree k0 (by simp)
    have hrest : ∀ k ∈ rest.map Prod.fst, List.lookup k v1 = List.lookup k v2 :=
      fun k hk => hagree k (by simp [hk])
    simp only [declLoop]
    rw [h0]
    split
    · exact ih hrest acc
    · split
      · exact ih hrest acc
      · split
        · exact congrArg (Unm.bind _) (funext fun w => ih hrest _)
        · split
          · exact ih hrest acc
          · exact congrArg (Unm.bind _) (funext fun w => ih hrest _)

theorem lookup_filterKeys {α : Type} (f : String → Bool) (k : String)
    (l : List (String × α)) :
    List.lookup k (l.filter (fun p => f p.1)) =
      if f k then List.lookup k l else none := by
  induction l with
  | nil => simp
  | cons p rest ih =>
    obtain ⟨a, b⟩ := p
    by_cases hf : f a = true
    · rw [List.filter_cons_of_pos (by simpa using hf)]
      by_cases hk : k = a
      · subst hk
        rw [lookup_cons_self, lookup_cons_self, if_pos hf]
      · rw [lookup_cons_ne _ _ hk, lookup_cons_ne _ _ hk, ih]
    · rw [List.filter_cons_of_neg (by simpa using hf)]
      by_cases hk : k = a
      · subst hk
        rw [ih, if_neg hf, if_neg hf]
      · rw [ih, lookup_cons_ne _ _ hk]

theorem oneOfScan_eq {upB : Schema → Unm (List (String × Val))} {bs : List Schema}
    (h : ∀ b ∈ bs, (∃ ps, (upB b).2 = .ok ps) ∨
          (∃ e, (upB b).2 = .error e ∧ e.isCaught = true)) :
    ∀ acc, oneOfScan upB bs acc =
      (scanWarnings acc.isSome (bs.map upB),
       .ok (match acc with
            | some ps => some ps
            | none => firstSuccess (bs.map upB))) := by
  induction bs with
  | nil =>
    intro acc
    cases acc <;> simp [oneOfScan, scanWarnings, firstSuccess, Unm.ok]
  | cons b rest ih =>
    intro acc
    have hb := h b (by simp)
    have hrest : ∀ b2 ∈ rest, (∃ ps, (upB b2).2 = .ok ps) ∨
        (∃ e, (upB b2).2 = .error e ∧ e.isCaught = true) :=
      fun b2 hb2 => h b2 (by simp [hb2])
    simp only [oneOfScan]
    cases hub : upB b with
    | mk l r =>
      cases r with
      | error e =>
        have he : e.isCaught = true := by
          rcases hb with ⟨ps, hps⟩ | ⟨e2, he2, hc⟩
          · rw [hub] at hps; simp at hps
          · rw [hub] at he2
            simp only at he2
            cases he2
            exact hc
        show (if e.isCaught = true then Unm.prep l (oneOfScan upB rest acc)
              else (l, Except.error e)) = _
        rw [if_pos he, ih hrest acc]
        simp [scanWarnings, firstSuccess, hub, Unm.prep, Except.toOption]
      | ok ps =>
        cases acc with
        | some ps0 =>
          show Unm.prep (l ++ ["multiple valid oneOf schemas found"])
              (oneOfScan upB rest (some ps0)) = _
          rw [ih hrest (some ps0)]
          simp [scanWarnings, firstSuccess, hub, Unm.prep]
        | none =>
          show Unm.prep l (oneOfScan upB rest (some ps)) = _
          rw [ih hrest (some ps)]
          simp [scanWarnings, firstSuccess, hub, Unm.prep, Except.toOption]

theorem firstSuccess_none {upB : Schema → Unm (List (String × Val))} {bs : List Schema}
    (hall : ∀ b ∈ bs, ∃ e, (upB b).2 = .error e) :
    firstSuccess (bs.map upB) = none := by
  induction bs with
  | nil => rfl
  | cons b rest ih =>
    rcases hall b (by simp) with ⟨e, he⟩
    have hrest : ∀ b2 ∈ rest, ∃ e, (upB b2).2 = .error e :=
      fun b2 hb2 => hall b2 (by simp [hb2])
    cases hub : upB b with
    | mk l r =>
      rw [hub] at he
      simp only at he
      subst he
      simp only [firstSuccess, List.map_cons, List.findSome?_cons, hub]
      simpa [firstSuccess, Except.toOption] using ih hrest

/-- C1: for every object schema with a oneOf list and every input mapping,
_unmarshal_object attempts _unmarshal_properties on every branch in order;
the result is the property set of the first branch that succeeds, later
successful branches are discarded after logging an ambiguity warning, and a
branch failure caught by `except (UnmarshalError, ValueError)` never aborts
the scan. -/
theorem oneOf_first_success_wins (env : Env) (child : Schema → Val → Unm Val)
    (s : Schema) (v : List (String × Val)) (bs : List Schema)
    (ps : List (String × Val))
    (hone : s.oneOf? = some bs) (hxm : s.xModel? = none)
    (htol : ∀ b ∈ bs,
      (∃ ps2, (unmarshal_properties env child s (some b) v).2 = .ok ps2) ∨
      (∃ e, (unmarshal_properties env child s (some b) v).2 = .error e ∧
        e.isCaught = true))
    (hfs : firstSuccess
        (bs.map fun b => unmarshal_properties env child s (some b) v) = some ps) :
    unmarshal_object env child s v =
      (scanWarnings false (bs.map fun b => unmarshal_properties env child s (some b) v),
       .ok (.obj ps)) := by
  simp only [unmarshal_object, hone, hxm]
  rw [oneOfScan_eq htol none]
  simp [hfs, Unm.ok, Unm.bind, Unm.prep]

/-- C2 (amended): for every object schema with a oneOf list where every
branch attempt fails with an error caught by
`except (UnmarshalError, ValueError)`, unmarshalling does not raise: it logs
the "valid oneOf schema not found" warning and the unmarshalled result is the
null value (Python None) — no additionalProperties handling is applied after
the failed scan. -/
theorem oneOf_no_match_returns_null (env : Env) (child : Schema → Val → Unm Val)
    (s : Schema) (v : List (String × Val)) (bs : List Schema)
    (hone : s.oneOf? = some bs) (hxm : s.xModel? = none)
    (hall : ∀ b ∈ bs, ∃ e,
      (unmarshal_properties env child s (some b) v).2 = .error e ∧
        e.isCaught = true) :
    unmarshal_object env child s v =
      (scanWarnings false (bs.map fun b => unmarshal_properties env child s (some b) v) ++
        ["valid oneOf schema not found"], .ok .null) := by
  have htol : ∀ b ∈ bs,
      (∃ ps2, (unmarshal_properties env child s (some b) v).2 = .ok ps2) ∨
      (∃ e, (unmarshal_properties env child s (some b) v).2 = .error e ∧
        e.isCaught = true) :=
    fun b hb => Or.inr (hall b hb)
  have hfs : firstSuccess
      (bs.map fun b => unmarshal_properties env child s (some b) v) = none :=
    firstSuccess_none (fun b hb => ⟨(hall b hb).choose, (hall b hb).choose_spec.1⟩)
  simp only [unmarshal_object, hone, hxm]
  rw [oneOfScan_eq htol none]
  simp [hfs, Unm.ok, Unm.bind, Unm.prep]

theorem oneOf_first_success_wins_witness :
    unmarshal_object envW childW sOneOf3 vW =
      (["multiple valid oneOf schemas found"], .ok (.obj [])) := by
  have h := oneOf_first_success_wins envW childW sOneOf3 vW [sBranchA, sEmptyW, sEmptyW] []
    rfl rfl
    (by
      intro b hb
      simp only [List.mem_cons, List.not_mem_nil, or_false] at hb
      rcases hb with h | h | h <;> subst h
      · exact Or.inr ⟨.invalidSchemaValue (.str "x") "integer" ["terr"], rfl, rfl⟩
      · exact Or.inl ⟨[], rfl⟩
      · exact Or.inl ⟨[], rfl⟩)
    rfl
  exact h.trans rfl

theorem oneOf_no_match_returns_null_witness :
    unmarshal_object envW childW sOneOf1 vW =
      (["valid oneOf schema not found"], .ok .null) := by
  have h := oneOf_no_match_returns_null envW childW sOneOf1 vW [sBranchA]
    rfl rfl
    (by
      intro b hb
      simp only [List.mem_cons, List.not_mem_nil, or_false] at hb
      subst hb
      exact ⟨.invalidSchemaValue (.str "x") "integer" ["terr"], rfl, rfl⟩)
  exact h.trans rfl

/-- C2 counterexample: an object schema whose single oneOf branch declares an
integer property "a", given input with "a" bound to a non-numeric string.
The branch attempt fails, and the full unmarshal returns the null value with
the warning — not the mapping that additionalProperties passthrough handling
of the input keys would produce (the claim predicted
`obj [("a", str "abc")]`). -/
theorem oneOf_no_match_cex :
    createAndCall envW 6 sObjOneOfCex none (.obj [("a", .str "abc")]) =
      (["valid oneOf schema not found"], .ok .null) ∧
    Val.null ≠ Val.obj [("a", .str "abc")] :=
  ⟨rfl, by simp⟩

theorem updAssoc_keys {α : Type} {base upd : List (String × α)} {k : String}
    (h : k ∈ (updAssoc base upd).map Prod.fst) :
    k ∈ base.map Prod.fst ∨ k ∈ upd.map Prod.fst := by
  unfold updAssoc at h
  rw [List.map_append, List.mem_append] at h
  rcases h with h | h
  · left
    rw [List.map_map] at h
    rcases List.mem_map.mp h with ⟨p, hp, hfp⟩
    refine List.mem_map.mpr ⟨p, hp, ?_⟩
    rw [← hfp]
    cases hlu : List.lookup p.1 upd <;> simp [Function.comp, hlu]
  · right
    rcases List.mem_map.mp h with ⟨p, hp, hfp⟩
    subst hfp
    exact List.mem_map_of_mem _ (List.mem_of_mem_filter hp)

theorem mergedProps_keys_subset {s : Schema} {b? : Option Schema} {k : String}
    (h : k ∈ (mergedProps s b?).map Prod.fst) : k ∈ mergedNames s b? := by
  cases b? with
  | none => exact h
  | some b =>
    simp only [mergedProps] at h
    simp only [mergedNames, get_all_properties_names, List.mem_append]
    exact updAssoc_keys h

theorem extraKeys_mem {s : Schema} {b? : Option Schema} {v : List (String × Val)}
    {k : String} (h : k ∈ extraKeys s b? v) :
    k ∈ v.map Prod.fst ∧ k ∉ mergedNames s b? := by
  simp only [extraKeys, List.mem_filter, Bool.not_eq_true'] at h
  refine ⟨h.1, fun hmem => ?_⟩
  have : (mergedNames s b?).contains k = true := by
    simpa using hmem
  rw [h.2] at this
  cases this

theorem extraKeys_not_declared {s : Schema} {b? : Option Schema}
    {v : List (String × Val)} {k : String} (h : k ∈ extraKeys s b? v) :
    k ∉ (mergedProps s b?).map Prod.fst :=
  fun hmem => (extraKeys_mem h).2 (mergedProps_keys_subset hmem)

/-- C3: for every object schema and input mapping, with extra the input keys
outside the declared property names: if additionalProperties is an object
schema, every extra key appears in the result with its value unmarshalled
through the factory-created unmarshaller for that schema; if
additionalProperties is true or absent, every extra key appears with its
input value unchanged; if additionalProperties is false, no extra key appears
in the result and the extra keys are dropped silently (the computation equals
the one on the input restricted to declared keys, so dropping raises
nothing). -/
theorem additional_properties_policy (env : Env) (child : Schema → Val → Unm Val)
    (s : Schema) (b? : Option Schema) (v : List (String × Val))
    (props : List (String × Val)) (k : String)
    (hnd : (v.map Prod.fst).Nodup)
    (hok : (unmarshal_properties env child s b? v).2 = .ok props)
    (hk : k ∈ extraKeys s b? v) :
    (∀ aps, s.addProps? = some (.schema aps) →
        ∃ pv w, List.lookup k v = some pv ∧ (child aps pv).2 = .ok w ∧
          List.lookup k props = some w) ∧
    ((s.addProps? = none ∨ s.addProps? = some (.bool true)) →
        List.lookup k props = List.lookup k v) ∧
    (s.addProps? = some (.bool false) →
        List.lookup k props = none ∧
        unmarshal_properties env child s b? v =
          unmarshal_properties env child s b?
            (v.filter (fun p => (mergedNames s b?).contains p.1))) := by
  have hndx : (extraKeys s b? v).Nodup := List.Nodup.filter _ hnd
  have hdecl : k ∉ (mergedProps s b?).map Prod.fst := extraKeys_not_declared hk
  refine ⟨?_, ?_, ?_⟩
  · intro aps haps
    simp only [unmarshal_properties, haps, Option.getD] at hok
    cases hx : addlSchemaLoop child aps v (extraKeys s b? v) [] with
    | mk l r =>
      rw [hx] at hok
      cases r with
      | error e => simp [Unm.bind] at hok
      | ok props0 =>
        rw [Unm.bind_ok, Unm.prep_snd] at hok
        rcases addlLoop_mem hndx hk _ _ (by rw [hx]) with ⟨pv, w, hpv, hcw, hl0⟩
        exact ⟨pv, w, hpv, hcw, by rw [declLoop_preserve hdecl _ _ hok, hl0]⟩
  · intro htrue
    have hok2 : (Unm.bind
        (Unm.ok (passthroughLoop v (extraKeys s b? v) []))
        (fun props0 => declLoop env child v (mergedProps s b?) props0)).2 =
        .ok props := by
      rcases htrue with h1 | h1 <;>
        simpa only [unmarshal_properties, h1, Option.getD] using hok
    rw [Unm.ok, Unm.bind_ok, Unm.prep_snd] at hok2
    rcases lookup_isSome_of_mem (extraKeys_mem hk).1 with ⟨pv, hpv⟩
    rw [declLoop_preserve hdecl _ _ hok2,
      ptLoop_mem hndx hk hpv _, hpv]
  · intro hfalse
    constructor
    · simp only [unmarshal_properties, hfalse, Option.getD] at hok
      rw [Unm.ok, Unm.bind_ok, Unm.prep_snd] at hok
      rw [declLoop_preserve hdecl _ _ hok]
      rfl
    · simp only [unmarshal_properties, hfalse, Option.getD_some]
      have hagree : ∀ k2 ∈ (mergedProps s b?).map Prod.fst,
          List.lookup k2 v =
          List.lookup k2 (v.filter (fun p => (mergedNames s b?).contains p.1)) := by
        intro k2 hk2
        rw [lookup_filterKeys, if_pos (by simpa using mergedProps_keys_subset hk2)]
      exact congrArg (Unm.bind (Unm.ok []))
        (funext fun props0 => declLoop_congr hagree props0)

theorem mem_keys_of_lookup {α : Type} {k : String} {l : List (String × α)} {w : α}
    (h : List.lookup k l = some w) : k ∈ l.map Prod.fst := by
  by_contra hn
  rw [lookup_eq_none_of_not_mem hn] at h
  cases h

theorem not_extra_of_declared {s : Schema} {b? : Option Schema}
    {v : List (String × Val)} {k : String} (h : k ∈ mergedNames s b?) :
    k ∉ extraKeys s b? v :=
  fun hx => (extraKeys_mem hx).2 h

/-- Splitting an `_unmarshal_properties` success into the extra-properties
phase and the declared-properties phase, for a key the extra phase never
touches. -/
theorem unmProps_split {env : Env} {child : Schema → Val → Unm Val} {s : Schema}
    {b? : Option Schema} {v : List (String × Val)} {props : List (String × Val)}
    {k : String}
    (hok : (unmarshal_properties env child s b? v).2 = .ok props)
    (hk : k ∉ extraKeys s b? v) :
    ∃ props0, (declLoop env child v (mergedProps s b?) props0).2 = .ok props ∧
      List.lookup k props0 = none := by
  simp only [unmarshal_properties] at hok
  cases haps : s.addProps?.getD (.bool true) with
  | bool b =>
    cases b with
    | true =>
      simp only [haps] at hok
      rw [Unm.ok, Unm.bind_ok, Unm.prep_snd] at hok
      exact ⟨_, hok, by rw [ptLoop_preserve hk _]; rfl⟩
    | false =>
      simp only [haps] at hok
      rw [Unm.ok, Unm.bind_ok, Unm.prep_snd] at hok
      exact ⟨[], hok, rfl⟩
  | schema aps =>
    simp only [haps] at hok
    cases hx : addlSchemaLoop child aps v (extraKeys s b? v) [] with
    | mk l r =>
      rw [hx] at hok
      cases r with
      | error e => simp [Unm.bind] at hok
      | ok props0 =>
        rw [Unm.bind_ok, Unm.prep_snd] at hok
        exact ⟨props0, hok, by rw [addlLoop_preserve hk _ _ (by rw [hx])]; rfl⟩

/-- C4: for every object schema and declared property, a readOnly property
under REQUEST context (or a writeOnly property under RESPONSE context) is
skipped entirely — absent from the result even when present in the input or
carrying a default; under the opposite context a present key is included,
bound to its recursively unmarshalled value. -/
theorem read_write_only_visibility (env : Env) (child : Schema → Val → Unm Val)
    (s : Schema) (b? : Option Schema) (v : List (String × Val))
    (props : List (String × Val)) (k : String) (ps : Schema)
    (hndp : ((mergedProps s b?).map Prod.fst).Nodup)
    (hfind : List.lookup k (mergedProps s b?) = some ps)
    (hok : (unmarshal_properties env child s b? v).2 = .ok props) :
    ((env.context = some .request ∧ ps.readOnly = true) ∨
     (env.context = some .response ∧ ps.writeOnly = true) →
        List.lookup k props = none) ∧
    (env.context = some .response → ps.readOnly = true → ps.writeOnly = false →
        ∀ pv, List.lookup k v = some pv →
          ∃ w, (child ps pv).2 = .ok w ∧ List.lookup k props = some w) := by
  obtain ⟨props0, hd, h0⟩ := unmProps_split hok
    (not_extra_of_declared (mergedProps_keys_subset (mem_keys_of_lookup hfind)))
  constructor
  · intro hskip
    rw [declLoop_skip hndp hfind hskip _ _ hd, h0]
  · intro hresp hro hwo pv hpv
    have hns1 : ¬ (env.context = some .request ∧ ps.readOnly = true) := by
      rintro ⟨hc, _⟩
      rw [hresp] at hc
      cases hc
    have hns2 : ¬ (env.context = some .response ∧ ps.writeOnly = true) := by
      rintro ⟨_, hw⟩
      rw [hwo] at hw
      cases hw
    exact declLoop_present hndp hfind hns1 hns2 hpv _ _ hd

/-- C5: for every non-skipped declared property: when the input mapping
contains the key, the input value is unmarshalled through the
factory-created unmarshaller for the property schema and stored under the
property name; otherwise a declared default literal is unmarshalled and
stored; otherwise the property is absent from the result. -/
theorem declared_property_value_selection (env : Env) (child : Schema → Val → Unm Val)
    (s : Schema) (b? : Option Schema) (v : List (String × Val))
    (props : List (String × Val)) (k : String) (ps : Schema)
    (hndp : ((mergedProps s b?).map Prod.fst).Nodup)
    (hfind : List.lookup k (mergedProps s b?) = some ps)
    (hok : (unmarshal_properties env child s b? v).2 = .ok props)
    (hns1 : ¬ (env.context = some .request ∧ ps.readOnly = true))
    (hns2 : ¬ (env.context = some .response ∧ ps.writeOnly = true)) :
    (∀ pv, List.lookup k v = some pv →
        ∃ w, (child ps pv).2 = .ok w ∧ List.lookup k props = some w) ∧
    (List.lookup k v = none → ∀ d, ps.default? = some d →
        ∃ w, (child ps d).2 = .ok w ∧ List.lookup k props = some w) ∧
    (List.lookup k v = none → ps.default? = none →
        List.lookup k props = none) := by
  obtain ⟨props0, hd, h0⟩ := unmProps_split hok
    (not_extra_of_declared (mergedProps_keys_subset (mem_keys_of_lookup hfind)))
  refine ⟨?_, ?_, ?_⟩
  · intro pv hpv
    exact declLoop_present hndp hfind hns1 hns2 hpv _ _ hd
  · intro hv d hdflt
    exact declLoop_defaulted hndp hfind hns1 hns2 hv hdflt _ _ hd
  · intro hv hdflt
    rw [declLoop_absent hndp hfind hv hdflt _ _ hd, h0]

theorem additional_properties_policy_witness :
    (v3W.map Prod.fst).Nodup ∧ "x" ∈ extraKeys sAddS none v3W ∧
    (∃ pv w, List.lookup "x" v3W = some pv ∧ (childOk sIntW pv).2 = .ok w ∧
      List.lookup "x" props3W = some w) :=
  ⟨by decide, by decide,
    (additional_properties_policy envW childOk sAddS none v3W props3W "x"
      (by decide) rfl (by decide)).1 sIntW rfl⟩

theorem read_write_only_visibility_witness :
    ((mergedProps s4W none).map Prod.fst).Nodup ∧
    List.lookup "ro" ([] : List (String × Val)) = none :=
  ⟨by decide,
    (read_write_only_visibility envReq childOk s4W none v4W [] "ro" sIntRO
      (by decide) rfl rfl).1 (Or.inl ⟨rfl, rfl⟩)⟩

theorem declared_property_value_selection_witness :
    ((mergedProps s5W none).map Prod.fst).Nodup ∧
    (∃ w, (childOk sIntDefW (.int 9)).2 = .ok w ∧
      List.lookup "d" props5W = some w) :=
  ⟨by decide,
    (declared_property_value_selection envW childOk s5W none [] props5W "d" sIntDefW
      (by decide) rfl rfl (by simp [envW]) (by simp [envW])).2.1 rfl (.int 9) rfl⟩

theorem fmtDict_validate : fmtDict.validate = is_object := rfl

theorem fmtList_validate : fmtList.validate = is_array := rfl

theorem fmtBoolean_validate : fmtBoolean.validate = is_bool := rfl

theorem fmtInteger_validate : fmtInteger.validate = is_integer := rfl

theorem fmtNumber_validate : fmtNumber.validate = is_number := rfl

theorem fmtString_validate : fmtString.validate = is_string := rfl

theorem create_noformat {env : Env} {sch : Schema} (hf : sch.format? = none)
    (hd : sch.deprecated = false) {ty : String} {fmt : Formatter}
    (hty : UNMARSHALLER_TYPES.contains ty = true)
    (hfmt : List.lookup (none : Option String) (defaultFormatters ty) = some fmt) :
    create env sch (some ty) = ([], .ok ⟨sch, ty, none, fmt⟩) := by
  simp only [create, customFormatterFor, effectiveType, hf, hd]
  rw [if_pos hty, if_neg (by simp)]
  rw [hfmt]
  rfl

/-- C6 (amended): for every schema without type, oneOf, allOf and format,
AnyUnmarshaller.unmarshal tries the fixed type order object, array, boolean,
integer, number, string, testing for each candidate only the default
formatter predicate of that type, and returns the full unmarshal (create and
invoke) of the first candidate whose predicate accepts; the value 42 is
classified as integer and the null value matches no candidate, in which case
a warning is logged and the raw value is returned unchanged. -/
theorem any_type_trial (env : Env) (callOnly : Unmarshaller → Val → Unm Val)
    (u : Unmarshaller) (v : Val)
    (ho : u.schema.oneOf? = none) (ha : u.schema.allOf? = none)
    (hf : u.schema.format? = none) (hd : u.schema.deprecated = false) :
    anyUnmarshal env callOnly u v =
      (match SCHEMA_TYPES_ORDER.find? (fun ty => typePredicate ty v) with
       | some ty => Unm.bind (create env u.schema (some ty)) (fun tu => callOnly tu v)
       | none => (["failed to unmarshal any type"], .ok v)) ∧
    SCHEMA_TYPES_ORDER.find? (fun ty => typePredicate ty (.int 42)) = some "integer" ∧
    SCHEMA_TYPES_ORDER.find? (fun ty => typePredicate ty .null) = none := by
  refine ⟨?_, rfl, rfl⟩
  have hco : create env u.schema (some "object") =
      ([], .ok ⟨u.schema, "object", none, fmtDict⟩) := create_noformat hf hd rfl rfl
  have hca : create env u.schema (some "array") =
      ([], .ok ⟨u.schema, "array", none, fmtList⟩) := create_noformat hf hd rfl rfl
  have hcb : create env u.schema (some "boolean") =
      ([], .ok ⟨u.schema, "boolean", none, fmtBoolean⟩) := create_noformat hf hd rfl rfl
  have hci : create env u.schema (some "integer") =
      ([], .ok ⟨u.schema, "integer", none, fmtInteger⟩) := create_noformat hf hd rfl rfl
  have hcn : create env u.schema (some "number") =
      ([], .ok ⟨u.schema, "number", none, fmtNumber⟩) := create_noformat hf hd rfl rfl
  have hcs : create env u.schema (some "string") =
      ([], .ok ⟨u.schema, "string", none, fmtString⟩) := create_noformat hf hd rfl rfl
  simp only [anyUnmarshal, ho, ha, Unm.ok, Unm.bind_ok, Unm.prep_nil,
    SCHEMA_TYPES_ORDER, anyTrial, List.find?, typePredicate,
    hco, hca, hcb, hci, hcn, hcs, fmtDict_validate, fmtList_validate,
    fmtBoolean_validate, fmtInteger_validate, fmtNumber_validate,
    fmtString_validate]
  by_cases h1 : is_object v <;>
    simp only [h1, if_true, if_false, Bool.false_eq_true, ite_true, ite_false,
      hco, Unm.bind_ok, Unm.prep_nil]
  by_cases h2 : is_array v <;>
    simp only [h2, if_true, if_false, Bool.false_eq_true, ite_true, ite_false,
      hca, Unm.bind_ok, Unm.prep_nil]
  by_cases h3 : is_bool v <;>
    simp only [h3, if_true, if_false, Bool.false_eq_true, ite_true, ite_false,
      hcb, Unm.bind_ok, Unm.prep_nil]
  by_cases h4 : is_integer v <;>
    simp only [h4, if_true, if_false, Bool.false_eq_true, ite_true, ite_false,
      hci, Unm.bind_ok, Unm.prep_nil]
  by_cases h5 : is_number v <;>
    simp only [h5, if_true, if_false, Bool.false_eq_true, ite_true, ite_false,
      hcn, Unm.bind_ok, Unm.prep_nil]
  by_cases h6 : is_string v <;>
    simp only [h6, if_true, if_false, Bool.false_eq_true, ite_true, ite_false,
      hcs, Unm.bind_ok, Unm.prep_nil]
  simp [Unm.prep]

/-- C6 counterexample: a schema without type, oneOf and allOf but with a
custom-formatted `format: weird` (custom formatter accepting everything)
classifies the value 42 as an object — the first candidate whose resolved
formatter predicate accepts — and the full unmarshal then fails with the
plain TypeError from mapping-coercing 42, rather than classifying 42 as
integer and unmarshalling it to 42 as the claim states. -/
theorem any_type_trial_cex :
    createAndCall envCustomW 10 sAnyWeirdW none (.int 42) = ([], .error .typeError) ∧
    (([], Except.error UErr.typeError) : Unm Val) ≠ ([], Except.ok (Val.int 42)) :=
  ⟨rfl, by simp⟩

theorem any_type_trial_witness :
    uAnyW.schema.oneOf? = none ∧
    (anyUnmarshal envW (fun _ v2 => ([], .ok v2)) uAnyW (.int 42) =
        match SCHEMA_TYPES_ORDER.find? (fun ty => typePredicate ty (.int 42)) with
        | some ty => Unm.bind (create envW uAnyW.schema (some ty))
            (fun tu => (fun _ v2 => (([], .ok v2) : Unm Val)) tu (.int 42))
        | none => (["failed to unmarshal any type"], .ok (.int 42))) :=
  ⟨rfl, (any_type_trial envW (fun _ v2 => ([], .ok v2)) uAnyW (.int 42)
    rfl rfl rfl rfl).1⟩

/-- C7: invoking an unmarshaller on the null sentinel performs no structural
validation and no transform — the result is the same for every validator
environment: scalar unmarshallers return null immediately, and arrays and
objects with nullable true return null (the array nullable check sits after
the base coercion step, the object one is subsumed by the base
short-circuit). -/
theorem null_short_circuit (env : Env) (n : Nat) (u : Unmarshaller) :
    ((u.schemaType = "string" ∨ u.schemaType = "integer" ∨
      u.schemaType = "number" ∨ u.schemaType = "boolean") →
        callU env (n + 1) u .null = ([], .ok .null)) ∧
    (u.schemaType = "array" → u.schema.nullable = true →
        callU env (n + 1) u .null = ([], .ok .null)) ∧
    (u.schemaType = "object" → u.schema.nullable = true →
        callU env (n + 1) u .null = ([], .ok .null)) := by
  refine ⟨?_, ?_, ?_⟩
  · intro h
    rcases h with h | h | h | h <;>
      simp [callU, h, baseCall, Unm.ok]
  · intro h hn
    simp [callU, h, arrayCall, baseCall, hn, Unm.ok, Unm.bind, Unm.prep]
  · intro h _
    simp [callU, h, objectCall, Unm.ok]

theorem null_short_circuit_witness :
    callU envW 3 uIntW .null = ([], .ok .null) ∧
    callU envW 3 uArrNullW .null = ([], .ok .null) :=
  ⟨(null_short_circuit envW 2 uIntW).1 (Or.inr (Or.inl rfl)),
   (null_short_circuit envW 2 uArrNullW).2.1 rfl rfl⟩

/-- C8: validate raises InvalidSchemaValue exactly when the validator
iterates at least one error; the raised error carries the offending value,
the declared schema type and the complete error list; with no errors,
validate returns normally and the base call proceeds to unmarshal the
unchanged value. -/
theorem validate_collects_all_errors (env : Env) (u : Unmarshaller) (v : Val) :
    ((uValidate env u.schema v).2 = .ok () ↔ env.validatorOf u.schema v = []) ∧
    (env.validatorOf u.schema v ≠ [] →
        uValidate env u.schema v =
          ([], .error (.invalidSchemaValue v (u.schema.type?.getD "any")
            (env.validatorOf u.schema v)))) ∧
    (env.validatorOf u.schema v = [] → v.isNull = false →
        baseCall env u v = fmtUnmarshal u v) := by
  refine ⟨?_, ?_, ?_⟩
  · cases herr : env.validatorOf u.schema v with
    | nil => simp [uValidate, herr, Unm.ok]
    | cons e es => simp [uValidate, herr, Unm.err]
  · intro hne
    cases herr : env.validatorOf u.schema v with
    | nil => exact absurd herr hne
    | cons e es => simp [uValidate, herr, Unm.err]
  · intro herr hnn
    cases v
    case null => simp [Val.isNull] at hnn
    all_goals
      simp only [baseCall, uValidate, herr, Unm.ok, Unm.bind_ok, Unm.prep_nil]

theorem validate_collects_all_errors_witness :
    envErrW.validatorOf uIntW.schema (.str "bad") ≠ [] ∧
    uValidate envErrW uIntW.schema (.str "bad") =
      ([], .error (.invalidSchemaValue (.str "bad") "integer" ["e1", "e2"])) :=
  ⟨by simp [envErrW], by
    have h := (validate_collects_all_errors envErrW uIntW (.str "bad")).2.1
      (by simp [envErrW])
    exact h.trans rfl⟩

/-- C9: formatter selection at create time — the caller-supplied custom
formatter keyed by the schema format string is preferred; otherwise the
default-formatter table of the dispatched kind, keyed by the optional format
with none as the no-format default, is used; if neither contains the format,
construction fails with FormatterNotFound and the combined create-and-invoke
fails with the same error for every value, before any unmarshalling. -/
theorem formatter_selection (env : Env) (s : Schema) (tyO : Option String)
    (n : Nat) (v : Val)
    (hty : UNMARSHALLER_TYPES.contains (effectiveType s tyO) = true) :
    (∀ f fmt, s.format? = some f →
        List.lookup f env.customFormatters = some fmt →
        create env s tyO =
          ((if s.deprecated = true then ["The schema is deprecated"] else []),
            .ok ⟨s, effectiveType s tyO, some f, fmt⟩)) ∧
    (customFormatterFor env s = none →
        ∀ fmt, List.lookup s.format? (defaultFormatters (effectiveType s tyO)) =
            some fmt →
          create env s tyO =
            ((if s.deprecated = true then ["The schema is deprecated"] else []),
              .ok ⟨s, effectiveType s tyO, s.format?, fmt⟩)) ∧
    (customFormatterFor env s = none →
        List.lookup s.format? (defaultFormatters (effectiveType s tyO)) = none →
          create env s tyO =
            ((if s.deprecated = true then ["The schema is deprecated"] else []),
              .error (.formatterNotFound s.format?)) ∧
          createAndCall env (n + 1) s tyO v =
            ((if s.deprecated = true then ["The schema is deprecated"] else []),
              .error (.formatterNotFound s.format?))) := by
  refine ⟨?_, ?_, ?_⟩
  · intro f fmt hf hl
    have hc : customFormatterFor env s = some fmt := by
      simp [customFormatterFor, hf, hl]
    simp only [create, hc, hf]
    rw [if_pos hty]
    simp [Unm.prep, Unm.ok]
  · intro hc fmt hl
    simp only [create, hc, hl]
    rw [if_pos hty]
    simp [Unm.prep, Unm.ok]
  · intro hc hl
    have h1 : create env s tyO =
        ((if s.deprecated = true then ["The schema is deprecated"] else []),
          .error (.formatterNotFound s.format?)) := by
      simp only [create, hc, hl]
      rw [if_pos hty]
      simp [Unm.prep, Unm.err]
    refine ⟨h1, ?_⟩
    simp only [createAndCall, h1, Unm.bind_err]

theorem formatter_selection_witness :
    UNMARSHALLER_TYPES.contains (effectiveType sIntWeirdW none) = true ∧
    createAndCall envW 4 sIntWeirdW none (.int 1) =
      ([], .error (.formatterNotFound (some "weird3"))) :=
  ⟨by decide, by
    have h := ((formatter_selection envW sIntWeirdW none 3 (.int 1)
      (by decide)).2.2 rfl rfl).2
    exact h.trans rfl⟩

/-- C10 (amended): for every array schema whose nullable key is false or
absent and whose items unmarshaller construction succeeds, invoking the
ArrayUnmarshaller on the null value raises the plain Python TypeError (from
mapping over None after the base call returns null) — not a structured
unmarshalling error and not a null or empty-list result. -/
theorem array_null_typeerror (env : Env) (n : Nat) (u : Unmarshaller)
    (it : Schema) (l : List String) (iu : Unmarshaller)
    (ha : u.schemaType = "array") (hn : u.schema.nullable = false)
    (hit : u.schema.items? = some it)
    (hc : create env it none = (l, .ok iu)) :
    callU env (n + 1) u .null = (l, .error .typeError) := by
  simp [callU, ha, arrayCall, baseCall, hn, hit, hc, Unm.ok, Unm.err, Unm.bind,
    Unm.prep]

/-- C10 counterexample: an array schema (nullable absent) whose items schema
carries an unregistered format — invoking on null raises
FormatterNotFoundError from the items unmarshaller construction, a
structured unmarshalling error and not the plain TypeError the claim
predicts for every array schema. -/
theorem array_null_typeerror_cex :
    createAndCall envW 5 sArrWeirdW none .null =
      ([], .error (.formatterNotFound (some "weird2"))) ∧
    UErr.formatterNotFound (some "weird2") ≠ UErr.typeError :=
  ⟨rfl, by simp⟩

theorem array_null_typeerror_witness :
    create envW sIntW none = ([], .ok uIntW) ∧
    callU envW 4 uArrPlainW .null = ([], .error .typeError) :=
  ⟨rfl, array_null_typeerror envW 3 uArrPlainW sIntW [] uIntW rfl rfl rfl rfl⟩

end OC
